import Mathlib

/-!
Verification of the session/game-round logic of the `eliza` repository
(Discord cogs: the Set card game in `playset/` and the trivia game in
`trivia_plus/`).  The Python sources are shallowly embedded below:

* characters are modelled by their Unicode code points (`Nat`); the Python
  string operations `str.lower`, `str.upper`, `str.strip`, the regex classes
  `\s`, `\w` and the word boundary `\b` are modelled on their ASCII fragment;
* the 3 x W Set board (a numpy array indexed `board[i % 3, i // 3]` for flat
  index `i`) is modelled as the flat list `L` with `L[i] = board[i % 3, i // 3]`,
  so `board[r, c] = L[3 * c + r]`;
* the `collections.Counter` score maps are modelled as insertion-ordered
  association lists;
* `asyncio` effects (messages sent, task cancellation, event dispatch) are
  modelled as explicit data returned by the corresponding step functions.
-/

namespace PlaySet

/-- Embedding of `_VALID_TRIPLES` from `playset/session.py`. -/
def validTriples : List (Nat × Nat × Nat) :=
  [(0,0,0),(1,1,1),(2,2,2),(0,1,2),(0,2,1),(1,0,2),(1,2,0),(2,0,1),(2,1,0)]

/-- Embedding of `_card_num_to_vec`: radix-3 decomposition of a card number
into its 4 attribute values. -/
def cardNumToVec (cardNum : Nat) : List Nat :=
  [cardNum / 27, (cardNum / 9) % 3, (cardNum / 3) % 3, cardNum % 3]

/-- Embedding of `_is_set`: for each of the 4 attributes the triple of values
must belong to `_VALID_TRIPLES`. -/
def isSet (cardList : List Nat) : Bool :=
  let vecs := cardList.map cardNumToVec
  (List.range 4).all fun i =>
    validTriples.contains
      ((vecs.getD 0 []).getD i 0, (vecs.getD 1 []).getD i 0, (vecs.getD 2 []).getD i 0)

/-- Embedding of `_board_contains_set`: some three distinct flat positions of
the board hold a valid triple.  The Python loops run over flat indices
`i < j < k`. -/
def boardContainsSet (board : List Nat) : Bool :=
  (List.range board.length).any fun i =>
    (List.range board.length).any fun j =>
      (List.range board.length).any fun k =>
        decide (i < j) && decide (j < k) &&
          isSet [board.getD i 0, board.getD j 0, board.getD k 0]

/-- Spec-side predicate: the three values of one attribute are all equal or
all distinct (never exactly two equal). -/
def allEqOrAllDistinct (x y z : Nat) : Prop :=
  (x = y ∧ y = z) ∨ (x ≠ y ∧ x ≠ z ∧ y ≠ z)

instance (x y z : Nat) : Decidable (allEqOrAllDistinct x y z) := by
  unfold allEqOrAllDistinct; infer_instance

/-- Spec-side validity of a triple of cards: each of the 4 attributes is
all-equal or all-distinct. -/
def validTripleSpec (a b c : Nat) : Prop :=
  ∀ i < 4, allEqOrAllDistinct ((cardNumToVec a).getD i 0)
    ((cardNumToVec b).getD i 0) ((cardNumToVec c).getD i 0)

/-- Embedding of the board-growing loop of `SetSession.__init__`: while the
board contains no set, append one column of 3 freshly drawn cards.  The Python
loop has no deck-size guard and would raise `IndexError` on a deck with fewer
than 3 cards; the model stops there instead (the initial deck size 81 - 12 is
a multiple of 3, so that point is the deck-exhausted point). -/
def growUntilSet (board deck : List Nat) : List Nat × List Nat :=
  if boardContainsSet board then (board, deck)
  else if deck.length < 3 then (board, deck)
  else growUntilSet (board ++ deck.take 3) (deck.drop 3)
termination_by deck.length
decreasing_by simp only [List.length_drop]; omega

/-- Embedding of the board construction in `SetSession.__init__`: lay out the
first 3 x 4 = 12 cards of the shuffled deck, then grow until a set exists. -/
def initBoard (deck : List Nat) : List Nat × List Nat :=
  growUntilSet (deck.take 12) (deck.drop 12)

/-- Embedding of the repair loop at the end of `_update_board`: while the
board contains no set and the deck is non-empty, append one column of 3 drawn
cards.  The Python body draws `deck[0]` three times and would raise
`IndexError` on a deck of 1 or 2 cards (which cannot occur: the deck size
stays a multiple of 3); the model draws `take 3` there. -/
def repairBoard (board deck : List Nat) : List Nat × List Nat :=
  if boardContainsSet board then (board, deck)
  else if deck = [] then (board, deck)
  else repairBoard (board ++ deck.take 3) (deck.drop 3)
termination_by deck.length
decreasing_by
  simp only [List.length_drop]
  rename_i h2
  have := List.length_pos.mpr h2
  omega

/-- Embedding of the reduce branch of `_update_board`: copy every card not in
the taken set into a board one column narrower (the Python target array is
pre-filled with zeros; left-over zero slots remain when fewer than 3 of the
taken cards are on the board). -/
def removeFromBoard (board cards : List Nat) : List Nat :=
  let kept := board.filter fun c => !cards.contains c
  kept ++ List.replicate (board.length - 3 - kept.length) 0

/-- Embedding of the replace branch of `_update_board`: every board position
holding a taken card is overwritten with the next drawn card.  The branch is
only reached with a non-empty deck; on deck exhaustion the model keeps the old
card where Python would raise `IndexError`. -/
def replaceOnBoard (board cards deck : List Nat) : List Nat × List Nat :=
  match board with
  | [] => ([], deck)
  | x :: rest =>
    if cards.contains x then
      match deck with
      | [] => (x :: rest, [])
      | d :: ds =>
        let r := replaceOnBoard rest cards ds
        (d :: r.1, r.2)
    else
      let r := replaceOnBoard rest cards deck
      (x :: r.1, r.2)

/-- Embedding of `_update_board`: reduce the board when it is wide (more than
4 columns) or the deck is empty, otherwise replace the taken cards with drawn
ones; then repair until a set exists or the deck is exhausted. -/
def updateBoard (board deck cards : List Nat) : List Nat × List Nat :=
  let step :=
    if 4 < board.length / 3 ∨ deck = [] then (removeFromBoard board cards, deck)
    else replaceOnBoard board cards deck
  repairBoard step.1 step.2

end PlaySet

namespace TriviaPlus

/-- Model of Python `str.lower` on a code point (ASCII fragment). -/
def pyToLower (n : Nat) : Nat := if 65 ≤ n ∧ n ≤ 90 then n + 32 else n

/-- Model of Python `str.upper` on a code point (ASCII fragment). -/
def pyToUpper (n : Nat) : Nat := if 97 ≤ n ∧ n ≤ 122 then n - 32 else n

/-- Model of the regex class `\s` on a code point (ASCII fragment): space,
tab, line feed, vertical tab, form feed, carriage return. -/
def isPySpace (n : Nat) : Bool :=
  n = 32 ∨ n = 9 ∨ n = 10 ∨ n = 11 ∨ n = 12 ∨ n = 13

/-- Model of the regex class `\w` on a code point (ASCII fragment): letters,
digits and underscore. -/
def isWordChar (n : Nat) : Bool :=
  (97 ≤ n ∧ n ≤ 122) ∨ (65 ≤ n ∧ n ≤ 90) ∨ (48 ≤ n ∧ n ≤ 57) ∨ n = 95

/-- Model of Python `str.strip` (ASCII whitespace fragment). -/
def pyStrip (s : List Nat) : List Nat :=
  ((s.dropWhile isPySpace).reverse.dropWhile isPySpace).reverse

/-- Model of `re.sub(r'\s+', ' ', s)`: every maximal whitespace run becomes a
single space.  The flag records whether the previous character was
whitespace. -/
def collapseWS : List Nat → Bool → List Nat
  | [], _ => []
  | c :: cs, prevSp =>
    if isPySpace c then
      if prevSp then collapseWS cs true else 32 :: collapseWS cs true
    else c :: collapseWS cs false

/-- Smart-quote code points: left/right double quotation mark, left/right
single quotation mark. -/
def isSmartQuote (n : Nat) : Bool := n = 8220 ∨ n = 8221 ∨ n = 8216 ∨ n = 8217

/-- Modelled from the spec: `normalize_smartquotes` from
`redbot.core.utils.common_filters` is not part of this repository; per the
spec it normalizes smart quotes, replacing curly double quotes by a straight
double quote (34) and curly single quotes by a straight apostrophe (39). -/
def normalizeSmartquotes (s : List Nat) : List Nat :=
  s.map fun n =>
    if n = 8220 ∨ n = 8221 then 34 else if n = 8216 ∨ n = 8217 then 39 else n

/-- Embedding of the guess normalization in `TriviaSession.check_answer._pred`:
`normalize_smartquotes(re.sub(r'\s+', ' ', message.content.strip().lower()))`. -/
def normalizeGuess (content : List Nat) : List Nat :=
  normalizeSmartquotes (collapseWS ((pyStrip content).map pyToLower) false)

/-- Regex tokens for the fragment of Python `re` exercised by
`check_answer`: literal characters, the `.` wildcard and the word boundary
`\b`. -/
inductive RTok where
  | lit : Nat → RTok
  | anyChar : RTok
  | wordB : RTok
deriving DecidableEq

/-- Code points that are special in a Python regular expression. -/
def isRegexMeta (n : Nat) : Bool :=
  n = 46 ∨ n = 94 ∨ n = 36 ∨ n = 42 ∨ n = 43 ∨ n = 63 ∨ n = 123 ∨ n = 125 ∨
    n = 91 ∨ n = 93 ∨ n = 92 ∨ n = 124 ∨ n = 40 ∨ n = 41

/-- Compilation of an answer string into regex tokens, modelling how
`re.compile` reads the unescaped interpolation `f'\b...\b'`.  Supported: the
`.` wildcard (46), the escape `\b` (92 98) and escaped punctuation; every
other metacharacter, escaped letter, digit or trailing backslash is outside
the modelled fragment and yields `none`. -/
def compileAnswer : List Nat → Option (List RTok)
  | [] => some []
  | 92 :: [] => none
  | 92 :: d :: rest =>
    if d = 98 then (compileAnswer rest).map (RTok.wordB :: ·)
    else if isWordChar d then none
    else (compileAnswer rest).map (RTok.lit d :: ·)
  | c :: rest =>
    if c = 46 then (compileAnswer rest).map (RTok.anyChar :: ·)
    else if isRegexMeta c then none
    else (compileAnswer rest).map (RTok.lit c :: ·)

/-- Embedding of `re.compile(f'\b...\b', re.I)` applied to one answer: the
answer tokens wrapped in word boundaries. -/
def compiledPattern (a : List Nat) : Option (List RTok) :=
  (compileAnswer a).map fun t => RTok.wordB :: (t ++ [RTok.wordB])

/-- Embedding of `answers = tuple(re.compile(...) for s in answers)` in
`check_answer`: compile each answer in order; `none` models an answer outside
the supported regex fragment (where `re.compile` may raise). -/
def checkAnswer : List (List Nat) → Option (List (List RTok))
  | [] => some []
  | a :: rest =>
    match compiledPattern a, checkAnswer rest with
    | some p, some ps => some (p :: ps)
    | _, _ => none

/-- Case-insensitive character match, modelling `re.I` (ASCII fragment). -/
def charMatchesCI (p c : Nat) : Bool := pyToLower p == pyToLower c

/-- Word-char test on an optional character; the ends of the string count as
non-word. -/
def isWordOpt : Option Nat → Bool
  | none => false
  | some c => isWordChar c

/-- Word boundary test between the previous character and the rest of the
string. -/
def atBoundary (prev : Option Nat) (rest : List Nat) : Bool :=
  isWordOpt prev != isWordOpt rest.head?

/-- Matching of a token list against a prefix of `s`; `prev` is the character
just before `s` (for word boundaries). -/
def matchToks : List RTok → Option Nat → List Nat → Bool
  | [], _, _ => true
  | RTok.wordB :: ps, prev, s => atBoundary prev s && matchToks ps prev s
  | RTok.lit _ :: _, _, [] => false
  | RTok.lit p :: ps, _, c :: cs => charMatchesCI p c && matchToks ps (some c) cs
  | RTok.anyChar :: _, _, [] => false
  | RTok.anyChar :: ps, _, c :: cs => (c != 10) && matchToks ps (some c) cs

/-- Model of `re.search`: try to match at every start position. -/
def searchFrom (p : List RTok) : Option Nat → List Nat → Bool
  | prev, [] => matchToks p prev []
  | prev, c :: cs => matchToks p prev (c :: cs) || searchFrom p (some c) cs

/-- Model of `pattern.search(guess)` from the start of the string. -/
def regexSearch (p : List RTok) (s : List Nat) : Bool := searchFrom p none s

/-- Embedding of the matching loop of `_pred`: normalize the guess, then try
each compiled answer pattern. -/
def predMatches (pats : List (List RTok)) (content : List Nat) : Bool :=
  let guess := normalizeGuess content
  pats.any fun p => regexSearch p guess

/-- Last character of `pre` seen before a suffix, defaulting to `prev`. -/
def lastCtx (prev : Option Nat) (pre : List Nat) : Option Nat :=
  pre.foldl (fun _ c => some c) prev

/-- Spec-side predicate for C3/C4: the normalized guess `g` contains the
answer `a` as a whole word delimited by word boundaries, with `a` treated as
a literal string, case-insensitively. -/
def literalWholeWordMatch (a g : List Nat) : Prop :=
  ∃ pre mid post, g = pre ++ mid ++ post ∧
    mid.map pyToLower = a.map pyToLower ∧
    atBoundary pre.getLast? (mid ++ post) = true ∧
    atBoundary (pre ++ mid).getLast? post = true

/-- Spec-side property: the answer compiles to plain literal tokens, one per
character (no regex metacharacters or escapes). -/
def plainLiteral (a : List Nat) : Prop :=
  compileAnswer a = some (a.map RTok.lit)

instance (a : List Nat) : Decidable (plainLiteral a) := by
  unfold plainLiteral; infer_instance

/-- Helper turning a Lean string literal into the code-point text used by the
model. -/
def codes (s : String) : List Nat := s.toList.map Char.toNat

end TriviaPlus

/-- Discord message author, with the flag telling whether the account is a
bot (the session object `self.ctx.guild.me` is the bot itself). -/
structure Author where
  id : Nat
  isBot : Bool
deriving DecidableEq

/-- Incoming chat message: channel, author, text (code points) and the wall
clock time at which the predicate observes it (`time.time()`). -/
structure Msg where
  channel : Nat
  author : Author
  content : List Nat
  time : Nat
deriving DecidableEq

namespace TriviaPlus

/-- Embedding of one call of `TriviaSession.check_answer._pred`: messages in
another channel or from the bot itself are rejected without touching
`_last_response`; every other message first resets `_last_response` to the
current time and is then matched against the compiled answers.  Returns the
predicate result and the new `_last_response`. -/
def predStep (channel : Nat) (me : Author) (pats : List (List RTok))
    (last : Nat) (m : Msg) : Bool × Nat :=
  if m.channel ≠ channel ∨ m.author = me then (false, last)
  else (predMatches pats m.content, m.time)

/-- Whether `_pred` accepts the message (the result component of
`predStep`, which does not depend on the stored `_last_response`). -/
def predAccept (channel : Nat) (me : Author) (pats : List (List RTok))
    (m : Msg) : Bool :=
  (predStep channel me pats 0 m).1

/-- Embedding of `bot.wait_for("message", check=_pred)`: feed the arriving
messages to the predicate in order, stopping at the first accepted one;
returns the final `_last_response` and the accepted message, if any. -/
def scanMsgs (channel : Nat) (me : Author) (pats : List (List RTok)) :
    Nat → List Msg → Nat × Option Msg
  | last, [] => (last, none)
  | last, m :: ms =>
    let r := predStep channel me pats last m
    if r.1 then (r.2, some m) else scanMsgs channel me pats r.2 ms

/-- Embedding of `self.scores[a] += d` on a `Counter`: update the entry in
place, or append a new one (Python dicts preserve insertion order). -/
def bumpScore : List (Author × Int) → Author → Int → List (Author × Int)
  | [], a, d => [(a, d)]
  | (b, v) :: rest, a, d =>
    if b = a then (b, v + d) :: rest else (b, v) :: bumpScore rest a d

/-- Score lookup in the association-list model of a `Counter` (missing keys
count 0). -/
def getScore : List (Author × Int) → Author → Int
  | [], _ => 0
  | (b, v) :: rest, a => if b = a then v else getScore rest a

/-- Embedding of `any(score >= max_score for score in self.scores.values())`. -/
def anyAtCap (scores : List (Author × Int)) (cap : Int) : Bool :=
  scores.any fun p => cap ≤ p.2

/-- Result of one `wait_for_answer` call: the returned flag, the updated
scores and `_last_response`, the author of the accepted answer (who received
the reply and the point), whether the inactivity stop fired, and whether a
timeout reply (reveal or canned fail message) was sent. -/
structure WaitRes where
  keepGoing : Bool
  scores : List (Author × Int)
  lastResp : Nat
  gotIt : Option Author
  inactivityStop : Bool
  timeoutReply : Bool
deriving DecidableEq

/-- Embedding of `TriviaSession.wait_for_answer`: wait for an accepted
message up to the delay (the message stream `msgs` is what arrives within
the delay); on an accepted message credit its author and reply; on timeout
either stop for inactivity (when `now - _last_response >= timeout`), or send
a reveal/fail reply and credit the bot when it plays along. -/
def waitForAnswer (pats : List (List RTok)) (channel : Nat) (me : Author)
    (botPlays : Bool) (timeout : Nat) (last0 : Nat) (msgs : List Msg)
    (now : Nat) (scores : List (Author × Int)) : WaitRes :=
  let s := scanMsgs channel me pats last0 msgs
  match s.2 with
  | some m => ⟨true, bumpScore scores m.author 1, s.1, some m.author, false, false⟩
  | none =>
    if timeout ≤ now - s.1 then ⟨false, scores, s.1, none, true, false⟩
    else if botPlays then ⟨true, bumpScore scores me 1, s.1, none, false, true⟩
    else ⟨true, scores, s.1, none, false, true⟩

/-- Input of one iteration of `TriviaSession.run`: the compiled answers of
the question, the messages arriving during the wait, and the time at which
the wait would time out. -/
structure RoundIn where
  pats : List (List RTok)
  msgs : List Msg
  now : Nat

/-- State carried by `TriviaSession.run` across iterations: scores,
`_last_response`, the number of questions presented (`self.count`) and
whether the loop has ended. -/
structure RunSt where
  scores : List (Author × Int)
  lastResp : Nat
  presented : Nat
  ended : Bool
deriving DecidableEq

/-- Embedding of one iteration of the `for` loop in `TriviaSession.run`:
present the question, wait for an answer, then stop when the wait was
interrupted or when some participant reached `max_score` (`end_game` plus
`break`). -/
def runStep (channel : Nat) (me : Author) (botPlays : Bool) (timeout : Nat)
    (cap : Int) (st : RunSt) (r : RoundIn) : RunSt :=
  if st.ended then st
  else
    let w := waitForAnswer r.pats channel me botPlays timeout st.lastResp r.msgs r.now st.scores
    if w.keepGoing = false then ⟨w.scores, w.lastResp, st.presented + 1, true⟩
    else if anyAtCap w.scores cap then ⟨w.scores, w.lastResp, st.presented + 1, true⟩
    else ⟨w.scores, w.lastResp, st.presented + 1, false⟩

/-- Embedding of the question loop of `TriviaSession.run` over a round
input per question. -/
def runTrivia (channel : Nat) (me : Author) (botPlays : Bool) (timeout : Nat)
    (cap : Int) (rounds : List RoundIn) (st : RunSt) : RunSt :=
  rounds.foldl (runStep channel me botPlays timeout cap) st

/-- Embedding of `self.scores.most_common(1)`: the first maximal entry of the
insertion-ordered counter (Python sorts stably in descending count order, so
ties go to the earlier inserted participant). -/
def mostCommon1 (scores : List (Author × Int)) : Option (Author × Int) :=
  scores.foldl (fun acc p =>
    match acc with
    | none => some p
    | some q => if q.2 < p.2 then some p else acc) none

/-- Model of Python `int()` on a rational: truncation toward zero. -/
def pyInt (q : ℚ) : Int := if q < 0 then -(Int.floor (-q)) else Int.floor q

/-- Embedding of `TriviaSession.pay_winner`: the top scorer is paid
`int(multiplier * score)` through the bank when they are not the bot, their
score is positive, at least 3 non-bot contestants appear in the score table
and the truncated amount is positive.  Returns the deposit call, if any. -/
def payWinner (scores : List (Author × Int)) (me : Author) (multiplier : ℚ) :
    Option (Author × Int) :=
  match mostCommon1 scores with
  | none => none
  | some (winner, score) =>
    if winner ≠ me ∧ 0 < score then
      let ks := scores.map Prod.fst
      let contestants := if me ∈ ks then ks.erase me else ks
      if 3 ≤ contestants.length then
        let amount := pyInt (multiplier * (score : ℚ))
        if 0 < amount then some (winner, amount) else none
      else none
    else none

/-- Embedding of the payout part of `TriviaSession.end_game`: `pay_winner`
runs only when the configured multiplier is positive. -/
def endGame (scores : List (Author × Int)) (me : Author) (multiplier : ℚ) :
    Option (Author × Int) :=
  if 0 < multiplier then payWinner scores me multiplier else none

/-- Raw YAML answer entries handled by `_parse_answers`: booleans,
per-question configuration dictionaries (identified by an id), strings, and
other scalars carried as integers (converted by `str`). -/
inductive RawAnswer where
  | boolA : Bool → RawAnswer
  | dictA : Nat → RawAnswer
  | strA : List Nat → RawAnswer
  | intA : Int → RawAnswer
deriving DecidableEq

/-- Embedding of the accumulation loop of `_parse_answers`: booleans expand
to the three affirmative or negative strings, dictionaries go to a separate
list, everything else is converted to a string and appended.  Returns
(`ret`, `dicts`). -/
def collectAnswers : List RawAnswer → List (List Nat) × List Nat
  | [] => ([], [])
  | RawAnswer.boolA true :: rest =>
    let r := collectAnswers rest
    (codes "True" :: codes "Yes" :: codes "On" :: r.1, r.2)
  | RawAnswer.boolA false :: rest =>
    let r := collectAnswers rest
    (codes "False" :: codes "No" :: codes "Off" :: r.1, r.2)
  | RawAnswer.dictA d :: rest =>
    let r := collectAnswers rest
    (r.1, d :: r.2)
  | RawAnswer.strA s :: rest =>
    let r := collectAnswers rest
    (s :: r.1, r.2)
  | RawAnswer.intA n :: rest =>
    let r := collectAnswers rest
    (codes (toString n) :: r.1, r.2)

/-- Embedding of the uniquify step of `_parse_answers`: keep an element only
when it was not seen before. -/
def dedupFirst (seen : List (List Nat)) : List (List Nat) → List (List Nat)
  | [] => []
  | x :: xs => if x ∈ seen then dedupFirst seen xs else x :: dedupFirst (x :: seen) xs

/-- Embedding of `_parse_answers`: the dictionaries (in order) followed by the
deduplicated strings; modelled as the pair (dicts, strings). -/
def parseAnswers (answers : List RawAnswer) : List Nat × List (List Nat) :=
  let c := collectAnswers answers
  (c.2, dedupFirst [] c.1)

/-- Spec-side expansion of one raw answer entry into its accepted strings. -/
def expandEntry : RawAnswer → List (List Nat)
  | RawAnswer.boolA true => [codes "True", codes "Yes", codes "On"]
  | RawAnswer.boolA false => [codes "False", codes "No", codes "Off"]
  | RawAnswer.dictA _ => []
  | RawAnswer.strA s => [s]
  | RawAnswer.intA n => [codes (toString n)]

/-- Spec-side selection of the per-question configuration dictionaries. -/
def dictEntry : RawAnswer → Option Nat
  | RawAnswer.dictA d => some d
  | _ => none

/-- Spec-side first-occurrence deduplication: keep each string the first time
it appears and drop its later duplicates. -/
def firstOccurSpec : List (List Nat) → List (List Nat)
  | [] => []
  | x :: xs => x :: firstOccurSpec (xs.filter fun y => y ≠ x)
termination_by l => l.length
decreasing_by simpa using Nat.lt_succ_of_le (List.length_filter_le _ _)

end TriviaPlus

namespace PlaySet

/-- Embedding of `_LETTER_MAP`: grid letters A..V (skipping Q) to (row,
column) positions. -/
def letterMap : List (Nat × (Nat × Nat)) :=
  [(65,(0,0)),(66,(0,1)),(67,(0,2)),(68,(0,3)),(69,(0,4)),(70,(0,5)),(71,(0,6)),
   (72,(1,0)),(73,(1,1)),(74,(1,2)),(75,(1,3)),(76,(1,4)),(77,(1,5)),(78,(1,6)),
   (79,(2,0)),(80,(2,1)),(82,(2,2)),(83,(2,3)),(84,(2,4)),(85,(2,5)),(86,(2,6))]

/-- Position of a letter on the grid, if it is a grid letter. -/
def letterPos (g : Nat) : Option (Nat × Nat) := letterMap.lookup g

/-- Embedding of the `validLetters` check of `check_set`: the letter is in
`_LETTER_MAP` with a column inside the current board width. -/
def validLetter (boardW g : Nat) : Bool :=
  match letterPos g with
  | some rc => rc.2 < boardW
  | none => false

/-- Card at a letter position: `board[_LETTER_MAP[g]]` in the flat
column-major model, `board[r, c] = L[3 * c + r]`. -/
def cardOf (board : List Nat) (g : Nat) : Nat :=
  match letterPos g with
  | some rc => board.getD (3 * rc.2 + rc.1) 0
  | none => 0

/-- Embedding of `SetSession.check_set`: reject messages from other channels
or from the bot, uppercase the guess, require exactly 3 distinct valid
letters, then test the referenced cards; a well-formed non-set call is
recorded in `wrongAnswers`.  Returns (accepted, appended to
`wrongAnswers`). -/
def checkSet (boardW : Nat) (board : List Nat) (sameChannel fromMe : Bool)
    (content : List Nat) : Bool × Bool :=
  if sameChannel = false ∨ fromMe = true then (false, false)
  else
    let guess := content.map TriviaPlus.pyToUpper
    if guess.length ≠ 3 then (false, false)
    else
      let g0 := guess.getD 0 0
      let g1 := guess.getD 1 0
      let g2 := guess.getD 2 0
      if g0 = g1 ∨ g0 = g2 ∨ g1 = g2 then (false, false)
      else if validLetter boardW g0 ∧ validLetter boardW g1 ∧ validLetter boardW g2 then
        if isSet [cardOf board g0, cardOf board g1, cardOf board g2] then (true, false)
        else (false, true)
      else (false, false)

/-- Embedding of one step of `SetSession._wrong_handler` on a queued wrong
answer: deduct one point from its author and send the penalty reply. -/
def wrongHandlerStep (scores : List (Author × Int)) (a : Author) :
    List (Author × Int) × Bool :=
  (TriviaPlus.bumpScore scores a (-1), true)

/-- Messages the Set stop flow can send (the trivia timeout messages are
included so their absence is expressible). -/
inductive OutMsg where
  | noSession : OutMsg
  | resultsTable : OutMsg
  | setStopped : OutMsg
  | nobodyGotIt : OutMsg
  | revealAnswerMsg : OutMsg
deriving DecidableEq

/-- Embedding of `SetSession.end_game`: send the results table when any
scores exist, then dispatch the `set_end` event (whose listener removes the
session from the registry).  Returns (messages, dispatched). -/
def endGameEffects (scoresNonempty : Bool) : List OutMsg × Bool :=
  ((if scoresNonempty then [OutMsg.resultsTable] else []), true)

/-- Observable effects of the stop command. -/
structure StopEffects where
  messages : List OutMsg
  dispatchedEnd : Bool
  taskCancelled : Bool
deriving DecidableEq

/-- Embedding of `PlaySet.set_stop`: without a session for the channel only a
notice is sent; otherwise `end_game()` runs (results table plus `set_end`
dispatch), the driving task is cancelled by `force_stop`, and "Set stopped."
is sent. -/
def setStopCommand (sessionExists scoresNonempty : Bool) : StopEffects :=
  if sessionExists = false then ⟨[OutMsg.noSession], false, false⟩
  else
    let eg := endGameEffects scoresNonempty
    ⟨eg.1 ++ [OutMsg.setStopped], eg.2, true⟩

/-- Embedding of `PlaySet.on_set_end`: remove the ending session from the
per-channel registry. -/
def onSetEnd (sessions : List Nat) (s : Nat) : List Nat := sessions.erase s

end PlaySet

namespace PlaySet

lemma mem_validTriples_iff (x y z : Nat) (hx : x < 3) (hy : y < 3) (hz : z < 3) :
    validTriples.contains (x, y, z) = true ↔ allEqOrAllDistinct x y z := by
  interval_cases x <;> interval_cases y <;> interval_cases z <;> decide

lemma cardNumToVec_lt (c : Nat) (hc : c < 81) :
    ∀ i < 4, (cardNumToVec c).getD i 0 < 3 := by
  intro i hi
  interval_cases i <;> simp [cardNumToVec] <;> omega

lemma isSet_eq_validTripleSpec (a b c : Nat) (ha : a < 81) (hb : b < 81) (hc : c < 81) :
    isSet [a, b, c] = true ↔ validTripleSpec a b c := by
  unfold isSet validTripleSpec
  simp only [List.map_cons, List.map_nil, List.getD_cons_zero, List.getD_cons_succ,
    List.all_eq_true, List.mem_range]
  constructor
  · intro h i hi
    exact (mem_validTriples_iff _ _ _ (cardNumToVec_lt a ha i hi)
      (cardNumToVec_lt b hb i hi) (cardNumToVec_lt c hc i hi)).mp (h i hi)
  · intro h i hi
    exact (mem_validTriples_iff _ _ _ (cardNumToVec_lt a ha i hi)
      (cardNumToVec_lt b hb i hi) (cardNumToVec_lt c hc i hi)).mpr (h i hi)

lemma growUntilSet_of_contains (board deck : List Nat)
    (h : boardContainsSet board = true) : growUntilSet board deck = (board, deck) := by
  rw [growUntilSet]; simp [h]

lemma repairBoard_of_contains (board deck : List Nat)
    (h : boardContainsSet board = true) : repairBoard board deck = (board, deck) := by
  rw [repairBoard]; simp [h]

lemma repairBoard_post (board deck : List Nat) :
    (repairBoard board deck).2 ≠ [] → boardContainsSet (repairBoard board deck).1 = true := by
  induction board, deck using repairBoard.induct with
  | case1 b d h => intro _; rw [repairBoard]; simp [h]
  | case2 b h => intro hne; rw [repairBoard] at hne; simp [h] at hne
  | case3 b d h h2 ih =>
    intro hne
    rw [repairBoard] at hne ⊢
    simp only [h, Bool.false_eq_true, if_false, if_neg h2] at hne ⊢
    exact ih hne

lemma growUntilSet_post (board deck : List Nat) :
    3 ≤ (growUntilSet board deck).2.length →
      boardContainsSet (growUntilSet board deck).1 = true := by
  induction board, deck using growUntilSet.induct with
  | case1 b d h => intro _; rw [growUntilSet]; simp [h]
  | case2 b d h h2 =>
    intro hge; rw [growUntilSet] at hge
    simp only [h, Bool.false_eq_true, if_false, if_pos h2] at hge
    omega
  | case3 b d h h2 ih =>
    intro hge
    rw [growUntilSet] at hge ⊢
    simp only [h, Bool.false_eq_true, if_false, if_neg h2] at hge ⊢
    exact ih hge

/-- C1: three cards in 0..80, mapped to 4-attribute vectors by the radix-3
decomposition, are accepted by the Set validity test `_is_set` if and only if
each of the 4 attributes is all-equal or all-distinct across the three cards. -/
theorem c1_set_validity (a b c : Nat) (ha : a < 81) (hb : b < 81) (hc : c < 81) :
    isSet [a, b, c] = true ↔ validTripleSpec a b c :=
  isSet_eq_validTripleSpec a b c ha hb hc

/-- Witness for C1: the vectors (0,0,0,0),(0,1,2,0),(0,2,1,0) - cards 0, 15
and 21 - are accepted, and cards 0, 1, 1 with vectors
(0,0,0,0),(0,0,0,1),(0,0,0,1) are rejected. -/
theorem c1_set_validity_witness :
    isSet [0, 15, 21] = true ∧ validTripleSpec 0 15 21 ∧ isSet [0, 1, 1] = false :=
  ⟨by decide,
   (c1_set_validity 0 15 21 (by decide) (by decide) (by decide)).mp (by decide),
   by decide⟩

/-- C2: after the initial board construction and after every
remove-and-refill performed by `_update_board`, if the undrawn deck still
holds at least 3 cards then the board contains at least one valid triple
(equivalently, the round only ends with no triple once the deck is
exhausted). -/
theorem c2_board_invariant :
    (∀ deck : List Nat, 3 ≤ (initBoard deck).2.length →
       boardContainsSet (initBoard deck).1 = true) ∧
    (∀ board deck cards : List Nat, 3 ≤ (updateBoard board deck cards).2.length →
       boardContainsSet (updateBoard board deck cards).1 = true) := by
  constructor
  · intro deck h
    exact growUntilSet_post _ _ h
  · intro board deck cards h
    unfold updateBoard at h ⊢
    apply repairBoard_post
    intro hnil
    rw [hnil] at h
    simp at h

/-- Witness for C2: with the identity deck 0..80 the initial board is the
cards 0..11 (which contain the set 0,1,2) with 69 cards left; replacing the
taken set 0,1,2 on that board leaves a board that still contains a set with
a non-empty deck. -/
theorem c2_board_invariant_witness :
    (3 ≤ (initBoard (List.range 81)).2.length ∧
       boardContainsSet (initBoard (List.range 81)).1 = true) ∧
    (3 ≤ (updateBoard (List.range 12) (List.range' 12 9) [0, 1, 2]).2.length ∧
       boardContainsSet (updateBoard (List.range 12) (List.range' 12 9) [0, 1, 2]).1 = true) := by
  have e1 : initBoard (List.range 81) = (List.range 12, List.range' 12 69) := by
    unfold initBoard
    rw [growUntilSet_of_contains _ _ (by decide)]
    decide
  have e2 : updateBoard (List.range 12) (List.range' 12 9) [0, 1, 2] =
      ([12, 13, 14, 3, 4, 5, 6, 7, 8, 9, 10, 11], [15, 16, 17, 18, 19, 20]) := by
    unfold updateBoard
    have estep : (if 4 < (List.range 12).length / 3 ∨ (List.range' 12 9) = [] then
        (removeFromBoard (List.range 12) [0, 1, 2], List.range' 12 9)
      else replaceOnBoard (List.range 12) [0, 1, 2] (List.range' 12 9)) =
        ([12, 13, 14, 3, 4, 5, 6, 7, 8, 9, 10, 11], [15, 16, 17, 18, 19, 20]) := by decide
    rw [estep]
    exact repairBoard_of_contains _ _ (by decide)
  refine ⟨⟨?_, c2_board_invariant.1 (List.range 81) ?_⟩,
    ⟨?_, c2_board_invariant.2 (List.range 12) (List.range' 12 9) [0, 1, 2] ?_⟩⟩
  all_goals first
    | (rw [e1]; decide)
    | (rw [e2]; decide)

end PlaySet

namespace TriviaPlus

lemma lastCtx_nil (prev : Option Nat) : lastCtx prev [] = prev := rfl

lemma lastCtx_cons (prev : Option Nat) (c : Nat) (l : List Nat) :
    lastCtx prev (c :: l) = lastCtx (some c) l := rfl

lemma getLast?_append_eq_lastCtx (l₂ : List Nat) : ∀ l₁ : List Nat,
    (l₁ ++ l₂).getLast? = lastCtx l₁.getLast? l₂ := by
  induction l₂ with
  | nil => intro l₁; simp [lastCtx]
  | cons c t ih =>
    intro l₁
    rw [lastCtx_cons, show l₁ ++ c :: t = (l₁ ++ [c]) ++ t by simp, ih (l₁ ++ [c]),
      List.getLast?_concat]

lemma getLast?_eq_lastCtx_none (l : List Nat) : l.getLast? = lastCtx none l := by
  simpa using getLast?_append_eq_lastCtx l []

lemma searchFrom_iff (p : List RTok) (s : List Nat) : ∀ prev : Option Nat,
    searchFrom p prev s = true ↔
      ∃ pre post, s = pre ++ post ∧ matchToks p (lastCtx prev pre) post = true := by
  induction s with
  | nil =>
    intro prev
    constructor
    · intro h; exact ⟨[], [], rfl, h⟩
    · rintro ⟨pre, post, heq, hm⟩
      obtain ⟨rfl, rfl⟩ := List.append_eq_nil.mp heq.symm
      exact hm
  | cons c cs ih =>
    intro prev
    rw [show searchFrom p prev (c :: cs) =
      (matchToks p prev (c :: cs) || searchFrom p (some c) cs) from rfl, Bool.or_eq_true]
    constructor
    · rintro (h | h)
      · exact ⟨[], c :: cs, rfl, h⟩
      · obtain ⟨pre, post, heq, hm⟩ := (ih (some c)).mp h
        exact ⟨c :: pre, post, by rw [heq, List.cons_append], hm⟩
    · rintro ⟨pre, post, heq, hm⟩
      cases pre with
      | nil =>
        left; rw [lastCtx_nil] at hm; rw [heq]; simpa using hm
      | cons c' pre' =>
        right
        rw [List.cons_append] at heq
        injection heq with h1 h2
        rw [lastCtx_cons, ← h1] at hm
        exact (ih (some c)).mpr ⟨pre', post, h2, hm⟩

lemma matchLits_append_iff (a : List Nat) (rest : List RTok) :
    ∀ (prev : Option Nat) (s : List Nat),
    matchToks (a.map RTok.lit ++ rest) prev s = true ↔
      ∃ mid post, s = mid ++ post ∧ mid.map pyToLower = a.map pyToLower ∧
        matchToks rest (lastCtx prev mid) post = true := by
  induction a with
  | nil =>
    intro prev s
    constructor
    · intro h; exact ⟨[], s, rfl, rfl, h⟩
    · rintro ⟨mid, post, heq, hmap, hm⟩
      have : mid = [] := List.map_eq_nil_iff.mp hmap
      subst this
      rw [heq]; exact hm
  | cons x xs ih =>
    intro prev s
    match s with
    | [] =>
      simp only [List.map_cons, List.cons_append, show
        matchToks (RTok.lit x :: (xs.map RTok.lit ++ rest)) prev [] = false from rfl,
        Bool.false_eq_true, false_iff]
      rintro ⟨mid, post, heq, hmap, _⟩
      match mid, hmap with
      | m :: mid', hmap => exact absurd heq.symm (by simp)
    | c :: cs =>
      rw [List.map_cons, List.cons_append, show
        matchToks (RTok.lit x :: (xs.map RTok.lit ++ rest)) prev (c :: cs) =
          (charMatchesCI x c && matchToks (xs.map RTok.lit ++ rest) (some c) cs) from rfl,
        Bool.and_eq_true]
      constructor
      · rintro ⟨hc, hrest⟩
        obtain ⟨mid', post, heq, hmap, hm⟩ := (ih (some c) cs).mp hrest
        refine ⟨c :: mid', post, by rw [heq, List.cons_append], ?_, ?_⟩
        · have : pyToLower c = pyToLower x := by
            have := of_decide_eq_true hc
            simpa [charMatchesCI] using this.symm
          simp [hmap, this]
        · rw [lastCtx_cons]; exact hm
      · rintro ⟨mid, post, heq, hmap, hm⟩
        cases mid with
        | nil => simp at hmap
        | cons m mid' =>
          rw [List.cons_append] at heq
          injection heq with h1 h2
          rw [lastCtx_cons] at hm
          have hml : pyToLower m = pyToLower x := by
            simpa using congrArg (fun l => l.headD 0) hmap
          have hmt : mid'.map pyToLower = xs.map pyToLower := by
            simpa using congrArg List.tail hmap
          refine ⟨by rw [h1]; simp [charMatchesCI, hml], ?_⟩
          refine (ih (some c) cs).mpr ⟨mid', post, h2, hmt, ?_⟩
          rw [h1]; exact hm

lemma matchToks_wordB_cons (ps : List RTok) (prev : Option Nat) (s : List Nat) :
    matchToks (RTok.wordB :: ps) prev s = (atBoundary prev s && matchToks ps prev s) := rfl

lemma matchToks_single_wordB (prev : Option Nat) (s : List Nat) :
    matchToks [RTok.wordB] prev s = atBoundary prev s := by
  rw [matchToks_wordB_cons]
  simp [matchToks]

lemma literal_search_iff (a g : List Nat) :
    regexSearch (RTok.wordB :: (a.map RTok.lit ++ [RTok.wordB])) g = true ↔
      literalWholeWordMatch a g := by
  unfold regexSearch
  rw [searchFrom_iff]
  constructor
  · rintro ⟨pre, suf, heq, hm⟩
    rw [matchToks_wordB_cons, Bool.and_eq_true] at hm
    obtain ⟨hb1, hm2⟩ := hm
    obtain ⟨mid, post, hsuf, hmap, hm3⟩ := (matchLits_append_iff a [RTok.wordB] _ _).mp hm2
    rw [matchToks_single_wordB] at hm3
    refine ⟨pre, mid, post, ?_, hmap, ?_, ?_⟩
    · rw [heq, hsuf, List.append_assoc]
    · rw [getLast?_eq_lastCtx_none, ← hsuf]; exact hb1
    · rw [getLast?_append_eq_lastCtx, getLast?_eq_lastCtx_none]; exact hm3
  · rintro ⟨pre, mid, post, heq, hmap, hb1, hb2⟩
    refine ⟨pre, mid ++ post, by rw [heq, List.append_assoc], ?_⟩
    rw [matchToks_wordB_cons, Bool.and_eq_true]
    refine ⟨by rw [← getLast?_eq_lastCtx_none]; exact hb1, ?_⟩
    refine (matchLits_append_iff a [RTok.wordB] _ _).mpr ⟨mid, post, rfl, hmap, ?_⟩
    rw [matchToks_single_wordB, ← getLast?_eq_lastCtx_none, ← getLast?_append_eq_lastCtx]
    exact hb2

end TriviaPlus

namespace TriviaPlus

lemma pyToLower_pySpace (n : Nat) : isPySpace (pyToLower n) = isPySpace n := by
  unfold pyToLower isPySpace
  split
  · rw [decide_eq_decide]; omega
  · rfl

lemma pyToLower_wordChar (n : Nat) : isWordChar (pyToLower n) = isWordChar n := by
  unfold pyToLower isWordChar
  split
  · rw [decide_eq_decide]; omega
  · rfl

lemma pyToLower_smartQuote (n : Nat) : isSmartQuote (pyToLower n) = isSmartQuote n := by
  unfold pyToLower isSmartQuote
  split
  · rw [decide_eq_decide]; omega
  · rfl

lemma pyToLower_idem (n : Nat) : pyToLower (pyToLower n) = pyToLower n := by
  unfold pyToLower
  split_ifs <;> omega

lemma wordChar_not_space (n : Nat) (h : isWordChar n = true) : isPySpace n = false := by
  unfold isWordChar at h
  unfold isPySpace
  rw [decide_eq_true_eq] at h
  rw [decide_eq_false_iff_not]
  omega

lemma dropWhile_eq_self_of_head (p : Nat → Bool) (l : List Nat)
    (h : ∀ c, l.head? = some c → p c = false) : l.dropWhile p = l := by
  cases l with
  | nil => rfl
  | cons a t =>
    rw [List.dropWhile_cons, h a rfl]
    simp

lemma pyStrip_eq_self (l : List Nat)
    (hh : ∀ c, l.head? = some c → isPySpace c = false)
    (hl : ∀ c, l.getLast? = some c → isPySpace c = false) : pyStrip l = l := by
  unfold pyStrip
  rw [dropWhile_eq_self_of_head _ _ hh]
  rw [dropWhile_eq_self_of_head _ _ (by simpa [List.head?_reverse] using hl)]
  exact List.reverse_reverse l

lemma collapseWS_map_pyToLower (l : List Nat) : ∀ b : Bool,
    collapseWS (l.map pyToLower) b = (collapseWS l b).map pyToLower := by
  induction l with
  | nil => intro b; rfl
  | cons c cs ih =>
    intro b
    rw [List.map_cons]
    unfold collapseWS
    rw [pyToLower_pySpace]
    by_cases hsp : isPySpace c = true
    · rw [hsp]
      simp only [if_true]
      cases b with
      | true => simpa using ih true
      | false =>
        simp only [Bool.false_eq_true, if_false, List.map_cons]
        rw [ih true]
        norm_num [pyToLower]
    · rw [Bool.not_eq_true] at hsp
      rw [hsp]
      simp only [Bool.false_eq_true, if_false, List.map_cons]
      rw [ih false]

lemma normalizeSmartquotes_eq_self (l : List Nat)
    (h : ∀ c ∈ l, isSmartQuote c = false) : normalizeSmartquotes l = l := by
  unfold normalizeSmartquotes
  induction l with
  | nil => rfl
  | cons c cs ih =>
    rw [List.map_cons, ih (fun x hx => h x (by simp [hx]))]
    have hc := h c (by simp)
    unfold isSmartQuote at hc
    rw [decide_eq_false_iff_not] at hc
    have h1 : ¬(c = 8220 ∨ c = 8221) := by omega
    have h2 : ¬(c = 8216 ∨ c = 8217) := by omega
    rw [if_neg h1, if_neg h2]

lemma getLast?_map_pyToLower (l : List Nat) :
    (l.map pyToLower).getLast? = l.getLast?.map pyToLower := by
  rw [← List.head?_reverse, ← List.map_reverse, List.head?_map, List.head?_reverse]

lemma checkAnswer_plain (answers : List (List Nat))
    (h : ∀ a ∈ answers, plainLiteral a) :
    checkAnswer answers =
      some (answers.map fun a => RTok.wordB :: (a.map RTok.lit ++ [RTok.wordB])) := by
  induction answers with
  | nil => rfl
  | cons a as ih =>
    have ha : compileAnswer a = some (a.map RTok.lit) := h a (by simp)
    rw [List.map_cons]
    unfold checkAnswer
    rw [ih (fun x hx => h x (by simp [hx]))]
    unfold compiledPattern
    rw [ha]
    rfl

lemma checkAnswer_mem (answers : List (List Nat)) : ∀ pats : List (List RTok),
    checkAnswer answers = some pats → ∀ a ∈ answers, ∀ p,
      compiledPattern a = some p → p ∈ pats := by
  induction answers with
  | nil => intro pats _ a ha; simp at ha
  | cons x xs ih =>
    intro pats hck a ha p hp
    unfold checkAnswer at hck
    match h1 : compiledPattern x, h2 : checkAnswer xs with
    | some q, some qs =>
      rw [h1, h2] at hck
      injection hck with hck
      rcases List.mem_cons.mp ha with rfl | hmem
      · rw [h1] at hp
        injection hp with hp
        rw [← hck, hp]
        exact List.mem_cons_self _ _
      · rw [← hck]
        exact List.mem_cons_of_mem _ (ih qs h2 a hmem p hp)
    | some q, none => rw [h1, h2] at hck; exact absurd hck (by simp)
    | none, some qs => rw [h1, h2] at hck; exact absurd hck (by simp)
    | none, none => rw [h1, h2] at hck; exact absurd hck (by simp)

end TriviaPlus

namespace TriviaPlus

/-- C3 (amended): for answers that compile to plain literal token lists (no
regex metacharacters or escapes), the trivia answer predicate returns true if
and only if the normalized guess (lowercased, stripped, whitespace-collapsed,
smart quotes normalized) contains some accepted answer as a whole word
delimited by word boundaries, case-insensitively.  Answers are interpolated
into the pattern unescaped, so an answer holding metacharacters acts as a
regular expression instead (see the counterexample). -/
theorem c3_whole_word_literal (answers : List (List Nat)) (pats : List (List RTok))
    (content : List Nat) (hck : checkAnswer answers = some pats)
    (hlit : ∀ a ∈ answers, plainLiteral a) :
    predMatches pats content = true ↔
      ∃ a ∈ answers, literalWholeWordMatch a (normalizeGuess content) := by
  rw [checkAnswer_plain answers hlit] at hck
  injection hck with hck
  subst hck
  show ((answers.map fun a => RTok.wordB :: (a.map RTok.lit ++ [RTok.wordB])).any
      fun p => regexSearch p (normalizeGuess content)) = true ↔ _
  rw [List.any_eq_true]
  constructor
  · rintro ⟨p, hp, h⟩
    obtain ⟨a, ha, rfl⟩ := List.mem_map.mp hp
    exact ⟨a, ha, (literal_search_iff a _).mp h⟩
  · rintro ⟨a, ha, h⟩
    exact ⟨_, List.mem_map.mpr ⟨a, ha, rfl⟩, (literal_search_iff a _).mpr h⟩

/-- Witness for C3 (amended): with the single literal answer "hi", the guess
"HI" matches, through the whole-word literal characterization. -/
theorem c3_whole_word_literal_witness :
    predMatches [[RTok.wordB, RTok.lit 104, RTok.lit 105, RTok.wordB]] (codes "HI") = true := by
  refine (c3_whole_word_literal [codes "hi"]
    [[RTok.wordB, RTok.lit 104, RTok.lit 105, RTok.wordB]] (codes "HI")
    (by decide) (by decide)).mpr ?_
  refine ⟨codes "hi", by decide, [], [104, 105], [], ?_, by decide, by decide, by decide⟩
  decide

/-- Counterexample for C3: the answer "a.c" is interpolated into the regex
unescaped, so the dot acts as a wildcard: the guess "abc" is accepted although
its normalization does not contain "a.c" as a literal whole word.  This
refutes the claim that answers are treated as literal strings. -/
theorem c3_counterexample :
    checkAnswer [codes "a.c"] =
      some [[RTok.wordB, RTok.lit 97, RTok.anyChar, RTok.lit 99, RTok.wordB]] ∧
    predMatches [[RTok.wordB, RTok.lit 97, RTok.anyChar, RTok.lit 99, RTok.wordB]]
      (codes "abc") = true ∧
    ¬ literalWholeWordMatch (codes "a.c") (normalizeGuess (codes "abc")) := by
  refine ⟨by decide, by decide, ?_⟩
  rintro ⟨pre, mid, post, heq, hmap, h1, h2⟩
  have hg : normalizeGuess (codes "abc") = [97, 98, 99] := by decide
  have ha : (codes "a.c").map pyToLower = [97, 46, 99] := by decide
  rw [hg] at heq
  rw [ha] at hmap
  have hlen : mid.length = 3 := by
    have := congrArg List.length hmap
    simpa using this
  have hlens := congrArg List.length heq
  simp only [List.length_append, hlen, List.length_cons, List.length_nil] at hlens
  have hpre : pre = [] := List.eq_nil_of_length_eq_zero (by omega)
  have hpost : post = [] := List.eq_nil_of_length_eq_zero (by omega)
  subst hpre hpost
  simp only [List.nil_append, List.append_nil] at heq
  rw [← heq] at hmap
  have hev : ([97, 98, 99] : List Nat).map pyToLower = [97, 98, 99] := by decide
  rw [hev] at hmap
  simp at hmap

/-- C4 (amended): the trivia answer predicate is reflexive on an answer `s`
drawn verbatim from its own accepted-answers list, in any letter case,
provided `s` survives guess normalization (no regex metacharacters or
escapes, first and last characters are word characters, whitespace already
collapsed, no smart quotes).  The counterexample shows reflexivity fails
without these conditions. -/
theorem c4_reflexive (answers : List (List Nat)) (pats : List (List RTok))
    (s m : List Nat) (hck : checkAnswer answers = some pats) (hmem : s ∈ answers)
    (hlit : plainLiteral s)
    (hhead : isWordOpt s.head? = true)
    (hlast : isWordOpt s.getLast? = true)
    (hws : collapseWS s false = s)
    (hsq : ∀ c ∈ s, isSmartQuote c = false)
    (hcase : m.map pyToLower = s.map pyToLower) :
    predMatches pats m = true := by
  have hpat : RTok.wordB :: (s.map RTok.lit ++ [RTok.wordB]) ∈ pats := by
    refine checkAnswer_mem answers pats hck s hmem _ ?_
    unfold compiledPattern
    rw [hlit]
    rfl
  -- the head and last characters of s are word characters, hence not spaces
  obtain ⟨sh, hsh⟩ : ∃ c, s.head? = some c := by
    cases h : s.head? with
    | none => rw [h] at hhead; simp [isWordOpt] at hhead
    | some c => exact ⟨c, rfl⟩
  obtain ⟨sl, hsl⟩ : ∃ c, s.getLast? = some c := by
    cases h : s.getLast? with
    | none => rw [h] at hlast; simp [isWordOpt] at hlast
    | some c => exact ⟨c, rfl⟩
  rw [hsh] at hhead
  rw [hsl] at hlast
  simp only [isWordOpt] at hhead hlast
  -- normalization of m only lowercases it
  have hmheads : m.head?.map pyToLower = s.head?.map pyToLower := by
    rw [← List.head?_map, ← List.head?_map, hcase]
  have hmlasts : (m.map pyToLower).getLast? = (s.map pyToLower).getLast? := by
    rw [hcase]
  have hstrip : pyStrip m = m := by
    refine pyStrip_eq_self m ?_ ?_
    · intro c hc
      rw [hc, hsh] at hmheads
      simp only [Option.map_some'] at hmheads
      injection hmheads with hmh
      have : isPySpace (pyToLower c) = false := by
        rw [hmh, pyToLower_pySpace]
        exact wordChar_not_space _ hhead
      rw [pyToLower_pySpace] at this
      exact this
    · intro c hc
      rw [getLast?_map_pyToLower, getLast?_map_pyToLower, hc, hsl] at hmlasts
      simp only [Option.map_some'] at hmlasts
      injection hmlasts with hml
      have : isPySpace (pyToLower c) = false := by
        rw [hml, pyToLower_pySpace]
        exact wordChar_not_space _ hlast
      rw [pyToLower_pySpace] at this
      exact this
  have hnorm : normalizeGuess m = s.map pyToLower := by
    unfold normalizeGuess
    rw [hstrip, hcase, collapseWS_map_pyToLower, hws]
    refine normalizeSmartquotes_eq_self _ ?_
    intro c hc
    obtain ⟨c0, hc0, rfl⟩ := List.mem_map.mp hc
    rw [pyToLower_smartQuote]
    exact hsq c0 hc0
  unfold predMatches
  rw [List.any_eq_true]
  refine ⟨_, hpat, ?_⟩
  rw [hnorm]
  refine (literal_search_iff s (s.map pyToLower)).mpr ?_
  refine ⟨[], s.map pyToLower, [], by simp, ?_, ?_, ?_⟩
  · rw [List.map_map]
    refine List.map_congr_left ?_
    intro c _
    exact pyToLower_idem c
  · unfold atBoundary
    rw [List.append_nil, List.head?_map, hsh, Option.map_some', List.getLast?_nil]
    simp only [isWordOpt, pyToLower_wordChar, hhead]
    rfl
  · unfold atBoundary
    rw [List.nil_append, getLast?_map_pyToLower, hsl, Option.map_some', List.head?_nil]
    simp only [isWordOpt, pyToLower_wordChar, hlast]
    rfl

/-- Witness for C4 (amended): the answer "hi" in the list ["hi"], guessed as
"Hi", is accepted. -/
theorem c4_reflexive_witness :
    predMatches [[RTok.wordB, RTok.lit 104, RTok.lit 105, RTok.wordB]] (codes "Hi") = true :=
  c4_reflexive [codes "hi"] [[RTok.wordB, RTok.lit 104, RTok.lit 105, RTok.wordB]]
    (codes "hi") (codes "Hi") (by decide) (by decide) (by decide) (by decide)
    (by decide) (by decide) (by decide) (by decide)

/-- Counterexample for C4: the answer "!" drawn verbatim from its own
accepted-answers list is not matched by a message whose entire text is "!";
the pattern wraps the answer in word boundaries and "!" is not a word
character, so the search fails and `matches` is not reflexive. -/
theorem c4_counterexample :
    checkAnswer [codes "!"] = some [[RTok.wordB, RTok.lit 33, RTok.wordB]] ∧
    predMatches [[RTok.wordB, RTok.lit 33, RTok.wordB]] (codes "!") = false := by
  decide

end TriviaPlus

namespace TriviaPlus

lemma collectAnswers_fst (l : List RawAnswer) :
    (collectAnswers l).1 = l.flatMap expandEntry := by
  induction l with
  | nil => rfl
  | cons a rest ih =>
    cases a with
    | boolA b => cases b <;> simp [collectAnswers, expandEntry, List.flatMap_cons, ih]
    | dictA d => simp [collectAnswers, expandEntry, List.flatMap_cons, ih]
    | strA s => simp [collectAnswers, expandEntry, List.flatMap_cons, ih]
    | intA n => simp [collectAnswers, expandEntry, List.flatMap_cons, ih]

lemma collectAnswers_snd (l : List RawAnswer) :
    (collectAnswers l).2 = l.filterMap dictEntry := by
  induction l with
  | nil => rfl
  | cons a rest ih =>
    cases a with
    | boolA b => cases b <;> simp [collectAnswers, dictEntry, List.filterMap_cons, ih]
    | dictA d => simp [collectAnswers, dictEntry, List.filterMap_cons, ih]
    | strA s => simp [collectAnswers, dictEntry, List.filterMap_cons, ih]
    | intA n => simp [collectAnswers, dictEntry, List.filterMap_cons, ih]

lemma dedupFirst_eq_firstOccur (l : List (List Nat)) : ∀ seen : List (List Nat),
    dedupFirst seen l = firstOccurSpec (l.filter fun x => decide (x ∉ seen)) := by
  induction l with
  | nil => intro seen; rw [List.filter_nil, firstOccurSpec]; rfl
  | cons x xs ih =>
    intro seen
    have hstep : dedupFirst seen (x :: xs) =
        if x ∈ seen then dedupFirst seen xs else x :: dedupFirst (x :: seen) xs := rfl
    by_cases hx : x ∈ seen
    · rw [hstep, if_pos hx]
      rw [List.filter_cons, show decide (x ∉ seen) = false from by simp [hx]]
      simp only [Bool.false_eq_true, if_false]
      exact ih seen
    · rw [hstep, if_neg hx]
      rw [List.filter_cons, show decide (x ∉ seen) = true from by simp [hx]]
      simp only [if_true]
      rw [firstOccurSpec, ih (x :: seen), List.filter_filter]
      congr 2
      apply List.filter_congr
      intro a _
      by_cases h1 : a = x <;> by_cases h2 : a ∈ seen <;> simp [h1, h2, List.mem_cons]

/-- C9: `_parse_answers` maps True to the strings True/Yes/On and False to
False/No/Off, passes dictionary entries through unchanged (collected
separately, in order), converts every other entry to a string, and removes
duplicate strings across all entries keeping the first occurrence order. -/
theorem c9_parse_answers :
    (∀ answers : List RawAnswer,
       parseAnswers answers =
         (answers.filterMap dictEntry,
          firstOccurSpec (answers.flatMap expandEntry))) ∧
    parseAnswers [RawAnswer.boolA true] =
      ([], [codes "True", codes "Yes", codes "On"]) ∧
    parseAnswers [RawAnswer.boolA false] =
      ([], [codes "False", codes "No", codes "Off"]) ∧
    parseAnswers [RawAnswer.strA (codes "Yes"), RawAnswer.boolA true, RawAnswer.dictA 7] =
      ([7], [codes "Yes", codes "True", codes "On"]) := by
  refine ⟨?_, by decide, by decide, by decide⟩
  intro answers
  simp only [parseAnswers]
  rw [collectAnswers_fst, collectAnswers_snd, dedupFirst_eq_firstOccur]
  have : ((answers.flatMap expandEntry).filter fun x => decide (x ∉ ([] : List (List Nat)))) =
      answers.flatMap expandEntry := by
    apply List.filter_eq_self.mpr
    intro a _
    simp
  rw [this]

end TriviaPlus

namespace TriviaPlus

lemma contestants_eq_filter (ks : List Author) (me : Author) (hnd : ks.Nodup) :
    (if me ∈ ks then ks.erase me else ks) = ks.filter fun a => a != me := by
  by_cases hm : me ∈ ks
  · rw [if_pos hm]
    exact hnd.erase_eq_filter me
  · rw [if_neg hm]
    refine (List.filter_eq_self.mpr ?_).symm
    intro a ha
    simp only [bne_iff_ne, ne_eq]
    intro he
    exact hm (he ▸ ha)

/-- C7 (amended): the highest scorer is paid `int(multiplier * score)`
through the ledger if and only if the multiplier is positive, the winner is a
non-house participant with positive score, at least 3 non-house participants
took part, and the truncated amount itself is positive (the code only
deposits when `amount > 0`, a condition the original claim omits). -/
theorem c7_payout (scores : List (Author × Int)) (me : Author) (mult : ℚ)
    (w : Author) (amt : Int) (hnd : (scores.map Prod.fst).Nodup) :
    endGame scores me mult = some (w, amt) ↔
      ∃ sc : Int, mostCommon1 scores = some (w, sc) ∧ 0 < mult ∧ w ≠ me ∧ 0 < sc ∧
        3 ≤ ((scores.map Prod.fst).filter fun a => a != me).length ∧
        amt = pyInt (mult * (sc : ℚ)) ∧ 0 < amt := by
  unfold endGame payWinner
  by_cases h0 : 0 < mult
  · rw [if_pos h0]
    match hmc : mostCommon1 scores with
    | none =>
      constructor
      · intro he; exact absurd he (by simp)
      · rintro ⟨sc, hsc, _⟩; exact absurd hsc (by simp)
    | some (pw, psc) =>
      simp only [contestants_eq_filter (scores.map Prod.fst) me hnd]
      by_cases h1 : pw ≠ me ∧ 0 < psc
      · rw [if_pos h1]
        by_cases h2 : 3 ≤ ((scores.map Prod.fst).filter fun a => a != me).length
        · rw [if_pos h2]
          by_cases h3 : 0 < pyInt (mult * (psc : ℚ))
          · rw [if_pos h3]
            constructor
            · intro he
              injection he with he
              obtain ⟨he1, he2⟩ := Prod.mk.injEq .. ▸ he
              exact ⟨psc, by rw [he1], h0, he1 ▸ h1.1, h1.2, h2, he2.symm,
                he2 ▸ h3⟩
            · rintro ⟨sc, hsc, _, _, _, _, hamt, hpos⟩
              injection hsc with hsc
              obtain ⟨hw, hs⟩ := Prod.mk.injEq .. ▸ hsc
              rw [hw, hs, ← hamt]
          · rw [if_neg h3]
            constructor
            · intro he; exact absurd he (by simp)
            · rintro ⟨sc, hsc, _, _, _, _, hamt, hpos⟩
              injection hsc with hsc
              obtain ⟨hw, hs⟩ := Prod.mk.injEq .. ▸ hsc
              rw [hamt, ← hs] at hpos
              exact absurd hpos h3
        · rw [if_neg h2]
          constructor
          · intro he; exact absurd he (by simp)
          · rintro ⟨sc, hsc, _, _, _, hlen, _⟩
            exact absurd hlen h2
      · rw [if_neg h1]
        constructor
        · intro he; exact absurd he (by simp)
        · rintro ⟨sc, hsc, _, hw, hs, _⟩
          injection hsc with hsc
          obtain ⟨hw2, hs2⟩ := Prod.mk.injEq .. ▸ hsc
          exact absurd ⟨hw2 ▸ hw, hs2 ▸ hs⟩ h1
  · rw [if_neg h0]
    constructor
    · intro he; exact absurd he (by simp)
    · rintro ⟨sc, _, hm, _⟩; exact absurd hm h0

/-- Witness for C7 (amended): multiplier 2, winning score 3, four distinct
non-house participants - the winner is deposited 6; and with only two
non-house participants no deposit happens regardless of score. -/
theorem c7_payout_witness :
    endGame [(⟨1, false⟩, 3), (⟨2, false⟩, 1), (⟨3, false⟩, 1), (⟨4, false⟩, 1)]
        ⟨0, true⟩ 2 = some (⟨1, false⟩, 6) ∧
    endGame [(⟨1, false⟩, 3), (⟨2, false⟩, 1)] ⟨0, true⟩ 2 = none := by
  constructor
  · refine (c7_payout _ ⟨0, true⟩ 2 ⟨1, false⟩ 6 (by decide)).mpr
      ⟨3, by decide, by norm_num, by decide, by decide, by decide, ?_, by decide⟩
    norm_num [pyInt]
  · by_contra h
    obtain ⟨⟨pw, pa⟩, hp⟩ := Option.ne_none_iff_exists'.mp h
    obtain ⟨sc, _, _, _, _, hlen, _⟩ :=
      (c7_payout _ ⟨0, true⟩ 2 pw pa (by decide)).mp hp
    revert hlen
    decide

/-- Counterexample for C7: with multiplier 1/10 and winning score 3 among
three non-house participants every condition of the claim holds, yet no
deposit happens because the truncated amount `int(0.3) = 0` fails the
`amount > 0` guard. -/
theorem c7_counterexample :
    endGame [(⟨1, false⟩, 3), (⟨2, false⟩, 1), (⟨3, false⟩, 1)] ⟨0, true⟩ (1 / 10) = none ∧
    (0 : ℚ) < 1 / 10 ∧
    mostCommon1 [(⟨1, false⟩, 3), (⟨2, false⟩, 1), (⟨3, false⟩, 1)] = some (⟨1, false⟩, 3) ∧
    (⟨1, false⟩ : Author) ≠ ⟨0, true⟩ ∧ (0 : Int) < 3 ∧
    3 ≤ (([(⟨1, false⟩, 3), (⟨2, false⟩, 1), (⟨3, false⟩, 1)].map
      (Prod.fst (α := Author) (β := Int))).filter fun a => a != (⟨0, true⟩ : Author)).length := by
  refine ⟨?_, by norm_num, by decide, by decide, by decide, by decide⟩
  unfold endGame payWinner
  norm_num [mostCommon1, pyInt]

end TriviaPlus

namespace TriviaPlus

lemma runStep_ended_fix (channel : Nat) (me : Author) (botPlays : Bool)
    (timeout : Nat) (cap : Int) (st : RunSt) (r : RoundIn) (h : st.ended = true) :
    runStep channel me botPlays timeout cap st r = st := by
  unfold runStep
  rw [h]
  simp

lemma runTrivia_ended_fix (channel : Nat) (me : Author) (botPlays : Bool)
    (timeout : Nat) (cap : Int) (rounds : List RoundIn) : ∀ st : RunSt,
    st.ended = true → runTrivia channel me botPlays timeout cap rounds st = st := by
  induction rounds with
  | nil => intro st _; rfl
  | cons r rs ih =>
    intro st h
    show runTrivia channel me botPlays timeout cap rs
      (runStep channel me botPlays timeout cap st r) = st
    rw [runStep_ended_fix _ _ _ _ _ _ _ h]
    exact ih st h

lemma runStep_capInv (channel : Nat) (me : Author) (botPlays : Bool)
    (timeout : Nat) (cap : Int) (st : RunSt) (r : RoundIn)
    (h : anyAtCap st.scores cap = true → st.ended = true) :
    anyAtCap (runStep channel me botPlays timeout cap st r).scores cap = true →
      (runStep channel me botPlays timeout cap st r).ended = true := by
  unfold runStep
  by_cases hend : st.ended = true
  · rw [if_pos hend]
    exact h
  · rw [if_neg hend]
    intro hcap
    by_cases hkg : (waitForAnswer r.pats channel me botPlays timeout st.lastResp
        r.msgs r.now st.scores).keepGoing = false
    · simp [hkg]
    · simp only [if_neg hkg] at hcap ⊢
      by_cases hat : anyAtCap (waitForAnswer r.pats channel me botPlays timeout
          st.lastResp r.msgs r.now st.scores).scores cap = true
      · rw [if_pos hat]
      · rw [if_neg hat] at hcap ⊢
        exact absurd hcap hat

lemma runTrivia_capInv (channel : Nat) (me : Author) (botPlays : Bool)
    (timeout : Nat) (cap : Int) (rounds : List RoundIn) : ∀ st : RunSt,
    (anyAtCap st.scores cap = true → st.ended = true) →
    anyAtCap (runTrivia channel me botPlays timeout cap rounds st).scores cap = true →
      (runTrivia channel me botPlays timeout cap rounds st).ended = true := by
  induction rounds with
  | nil => intro st h; exact h
  | cons r rs ih =>
    intro st h
    exact ih _ (runStep_capInv channel me botPlays timeout cap st r h)

/-- C8: whenever a scoring event brings some participant to the configured
score cap, the round is over immediately after that event: after any prefix
of rounds in which the cap is reached, the session is ended and the remaining
rounds present no further question and change nothing. -/
theorem c8_cap_ends (channel : Nat) (me : Author) (botPlays : Bool)
    (timeout : Nat) (cap : Int) (pre rest : List RoundIn) (st0 : RunSt)
    (h0 : anyAtCap st0.scores cap = true → st0.ended = true)
    (hcap : anyAtCap (runTrivia channel me botPlays timeout cap pre st0).scores cap = true) :
    (runTrivia channel me botPlays timeout cap pre st0).ended = true ∧
    runTrivia channel me botPlays timeout cap rest
        (runTrivia channel me botPlays timeout cap pre st0) =
      runTrivia channel me botPlays timeout cap pre st0 := by
  have hend := runTrivia_capInv channel me botPlays timeout cap pre st0 h0 hcap
  exact ⟨hend, runTrivia_ended_fix channel me botPlays timeout cap rest _ hend⟩

/-- Witness for C8: with cap 1, a correct answer in the first round reaches
the cap; the session is ended and a further round changes nothing. -/
theorem c8_cap_ends_witness :
    anyAtCap (runTrivia 0 ⟨0, true⟩ false 100 1
        [⟨[[RTok.wordB, RTok.lit 104, RTok.lit 105, RTok.wordB]],
          [⟨0, ⟨1, false⟩, codes "hi", 5⟩], 6⟩]
        ⟨[], 0, 0, false⟩).scores 1 = true ∧
    (runTrivia 0 ⟨0, true⟩ false 100 1
        [⟨[[RTok.wordB, RTok.lit 104, RTok.lit 105, RTok.wordB]],
          [⟨0, ⟨1, false⟩, codes "hi", 5⟩], 6⟩]
        ⟨[], 0, 0, false⟩).ended = true ∧
    runTrivia 0 ⟨0, true⟩ false 100 1 [⟨[], [], 0⟩]
        (runTrivia 0 ⟨0, true⟩ false 100 1
          [⟨[[RTok.wordB, RTok.lit 104, RTok.lit 105, RTok.wordB]],
            [⟨0, ⟨1, false⟩, codes "hi", 5⟩], 6⟩]
          ⟨[], 0, 0, false⟩) =
      runTrivia 0 ⟨0, true⟩ false 100 1
        [⟨[[RTok.wordB, RTok.lit 104, RTok.lit 105, RTok.wordB]],
          [⟨0, ⟨1, false⟩, codes "hi", 5⟩], 6⟩]
        ⟨[], 0, 0, false⟩ := by
  refine ⟨by decide, ?_, ?_⟩
  · exact (c8_cap_ends 0 ⟨0, true⟩ false 100 1
      [⟨[[RTok.wordB, RTok.lit 104, RTok.lit 105, RTok.wordB]],
        [⟨0, ⟨1, false⟩, codes "hi", 5⟩], 6⟩] [⟨[], [], 0⟩]
      ⟨[], 0, 0, false⟩ (by decide) (by decide)).1
  · exact (c8_cap_ends 0 ⟨0, true⟩ false 100 1
      [⟨[[RTok.wordB, RTok.lit 104, RTok.lit 105, RTok.wordB]],
        [⟨0, ⟨1, false⟩, codes "hi", 5⟩], 6⟩] [⟨[], [], 0⟩]
      ⟨[], 0, 0, false⟩ (by decide) (by decide)).2

end TriviaPlus

namespace TriviaPlus

lemma predStep_snd (channel : Nat) (me : Author) (pats : List (List RTok))
    (last : Nat) (m : Msg) :
    (predStep channel me pats last m).2 =
      if m.channel ≠ channel ∨ m.author = me then last else m.time := by
  unfold predStep
  split <;> rfl

lemma predStep_fst_not_early (channel : Nat) (me : Author) (pats : List (List RTok))
    (last : Nat) (m : Msg) (h : (predStep channel me pats last m).1 = true) :
    m.channel = channel ∧ m.author ≠ me := by
  unfold predStep at h
  by_cases he : m.channel ≠ channel ∨ m.author = me
  · rw [if_pos he] at h
    exact absurd h (by simp)
  · push_neg at he
    exact ⟨he.1, he.2⟩

lemma scanMsgs_last_ge (channel : Nat) (me : Author) (pats : List (List RTok))
    (x : Nat) : ∀ (msgs : List Msg) (last0 : Nat), x ≤ last0 →
    (∀ m ∈ msgs, m.channel = channel ∧ m.author ≠ me → x ≤ m.time) →
    x ≤ (scanMsgs channel me pats last0 msgs).1 := by
  intro msgs
  induction msgs with
  | nil => intro last0 h _; exact h
  | cons m ms ih =>
    intro last0 h hall
    show x ≤ (let r := predStep channel me pats last0 m;
      if r.1 then (r.2, some m) else scanMsgs channel me pats r.2 ms).1
    have hr2 : x ≤ (predStep channel me pats last0 m).2 := by
      rw [predStep_snd]
      by_cases he : m.channel ≠ channel ∨ m.author = me
      · rw [if_pos he]; exact h
      · rw [if_neg he]
        push_neg at he
        exact hall m (List.mem_cons_self m ms) ⟨he.1, he.2⟩
    by_cases hacc : (predStep channel me pats last0 m).1 = true
    · simp only [hacc, if_true]
      exact hr2
    · rw [Bool.not_eq_true] at hacc
      simp only [hacc, Bool.false_eq_true, if_false]
      exact ih _ hr2 (fun m' hm' ht => hall m' (List.mem_cons_of_mem m hm') ht)

lemma scanMsgs_none_resets (channel : Nat) (me : Author) (pats : List (List RTok)) :
    ∀ (msgs : List Msg) (last0 : Nat),
    msgs.Pairwise (fun m1 m2 => m1.time ≤ m2.time) →
    (scanMsgs channel me pats last0 msgs).2 = none →
    ∀ m ∈ msgs, m.channel = channel ∧ m.author ≠ me →
      m.time ≤ (scanMsgs channel me pats last0 msgs).1 := by
  intro msgs
  induction msgs with
  | nil => intro last0 _ _ m hm; simp at hm
  | cons m0 ms ih =>
    intro last0 hsort hnone m hm htouch
    have hstep : scanMsgs channel me pats last0 (m0 :: ms) =
        (let r := predStep channel me pats last0 m0;
         if r.1 then (r.2, some m0) else scanMsgs channel me pats r.2 ms) := rfl
    by_cases hacc : (predStep channel me pats last0 m0).1 = true
    · rw [hstep] at hnone
      simp only [hacc, if_true] at hnone
      exact absurd hnone (by simp)
    · rw [Bool.not_eq_true] at hacc
      rw [hstep] at hnone ⊢
      simp only [hacc, Bool.false_eq_true, if_false] at hnone ⊢
      rcases List.mem_cons.mp hm with rfl | hmem
      · -- the head message: its touch sets the clock to its time, and later
        -- messages only move the clock forward
        have hr2 : (predStep channel me pats last0 m).2 = m.time := by
          rw [predStep_snd, if_neg]
          push_neg
          exact ⟨htouch.1, htouch.2⟩
        refine scanMsgs_last_ge channel me pats m.time ms _ (by rw [hr2]) ?_
        intro m' hm' _
        exact (List.pairwise_cons.mp hsort).1 m' hm'
      · exact ih _ (List.pairwise_cons.mp hsort).2 hnone m hmem htouch

/-- C10: the inactivity end fires on an answer-wait timeout only when no
message from a non-bot author has appeared in the channel (among the messages
the wait predicate observed) for at least the configured timeout window:
every such message resets `_last_response`, so whenever the stop fires, every
observed in-channel non-bot message is older than the window. -/
theorem c10_inactivity (channel : Nat) (me : Author) (pats : List (List RTok))
    (botPlays : Bool) (timeout last0 now : Nat) (msgs : List Msg)
    (scores : List (Author × Int))
    (hbot : me.isBot = true)
    (hsort : msgs.Pairwise fun m1 m2 => m1.time ≤ m2.time)
    (htimes : ∀ m ∈ msgs, m.time ≤ now)
    (hfires : (waitForAnswer pats channel me botPlays timeout last0 msgs now
        scores).inactivityStop = true) :
    ∀ m ∈ msgs, m.channel = channel → m.author.isBot = false →
      m.time + timeout ≤ now := by
  unfold waitForAnswer at hfires
  match hs : (scanMsgs channel me pats last0 msgs).2 with
  | some m0 =>
    rw [show scanMsgs channel me pats last0 msgs =
        ((scanMsgs channel me pats last0 msgs).1, (scanMsgs channel me pats last0 msgs).2)
      from rfl, hs] at hfires
    exact absurd hfires (by simp)
  | none =>
    rw [show scanMsgs channel me pats last0 msgs =
        ((scanMsgs channel me pats last0 msgs).1, (scanMsgs channel me pats last0 msgs).2)
      from rfl, hs] at hfires
    simp only at hfires
    by_cases htm : timeout ≤ now - (scanMsgs channel me pats last0 msgs).1
    · intro m hm hch hnb
      have hne : m.author ≠ me := by
        intro he
        rw [he, hbot] at hnb
        exact absurd hnb (by simp)
      have hle : m.time ≤ (scanMsgs channel me pats last0 msgs).1 :=
        scanMsgs_none_resets channel me pats msgs last0 hsort hs m hm ⟨hch, hne⟩
      have hmn := htimes m hm
      omega
    · rw [if_neg htm] at hfires
      by_cases hbp : botPlays = true <;> simp [hbp] at hfires

/-- Witness for C10: a non-matching guess at time 10 resets the clock; with
timeout 5 and the wait timing out at 20 the inactivity stop fires, and indeed
the message is older than the window. -/
theorem c10_inactivity_witness :
    (waitForAnswer [[RTok.wordB, RTok.lit 113, RTok.wordB]] 0 ⟨0, true⟩ false 5 0
        [⟨0, ⟨1, false⟩, codes "xyz", 10⟩] 20 []).inactivityStop = true ∧
    10 + 5 ≤ 20 :=
  ⟨by decide,
   c10_inactivity 0 ⟨0, true⟩ [[RTok.wordB, RTok.lit 113, RTok.wordB]] false 5 0 20
     [⟨0, ⟨1, false⟩, codes "xyz", 10⟩] [] (by decide) (by simp) (by decide) (by decide)
     ⟨0, ⟨1, false⟩, codes "xyz", 10⟩ (by simp) rfl rfl⟩

end TriviaPlus

namespace TriviaPlus

lemma getScore_bumpScore_ne (a b : Author) (d : Int) (hne : a ≠ b) :
    ∀ s : List (Author × Int), getScore (bumpScore s b d) a = getScore s a := by
  intro s
  induction s with
  | nil =>
    show getScore [(b, d)] a = 0
    unfold getScore
    rw [if_neg (fun h => hne h.symm)]
    rfl
  | cons p rest ih =>
    obtain ⟨c, v⟩ := p
    show getScore (if c = b then (c, v + d) :: rest else (c, v) :: bumpScore rest b d) a =
      getScore ((c, v) :: rest) a
    by_cases hcb : c = b
    · rw [if_pos hcb]
      unfold getScore
      rw [if_neg (fun h : c = a => hne (h ▸ hcb ▸ rfl))]
      rw [if_neg (fun h : c = a => hne (h ▸ hcb ▸ rfl))]
    · rw [if_neg hcb]
      unfold getScore
      by_cases hca : c = a
      · rw [if_pos hca, if_pos hca]
      · rw [if_neg hca, if_neg hca]
        exact ih

lemma getScore_bumpScore_self (b : Author) (d : Int) :
    ∀ s : List (Author × Int), getScore (bumpScore s b d) b = getScore s b + d := by
  intro s
  induction s with
  | nil =>
    show getScore [(b, d)] b = 0 + d
    unfold getScore
    rw [if_pos rfl, zero_add]
  | cons p rest ih =>
    obtain ⟨c, v⟩ := p
    show getScore (if c = b then (c, v + d) :: rest else (c, v) :: bumpScore rest b d) b =
      getScore ((c, v) :: rest) b + d
    by_cases hcb : c = b
    · rw [if_pos hcb]
      unfold getScore
      rw [if_pos hcb, if_pos hcb]
    · rw [if_neg hcb]
      unfold getScore
      rw [if_neg hcb, if_neg hcb]
      exact ih

lemma predStep_fst (channel : Nat) (me : Author) (pats : List (List RTok))
    (last : Nat) (m : Msg) :
    (predStep channel me pats last m).1 = predAccept channel me pats m := by
  unfold predAccept predStep
  split <;> rfl

lemma scanMsgs_none_of_all_false (channel : Nat) (me : Author)
    (pats : List (List RTok)) : ∀ (msgs : List Msg) (last0 : Nat),
    (∀ m ∈ msgs, predAccept channel me pats m = false) →
    (scanMsgs channel me pats last0 msgs).2 = none := by
  intro msgs
  induction msgs with
  | nil => intro last0 _; rfl
  | cons m ms ih =>
    intro last0 hall
    show (let r := predStep channel me pats last0 m;
      if r.1 then (r.2, some m) else scanMsgs channel me pats r.2 ms).2 = none
    have hm : (predStep channel me pats last0 m).1 = false := by
      rw [predStep_fst]
      exact hall m (List.mem_cons_self m ms)
    simp only [hm, Bool.false_eq_true, if_false]
    exact ih _ (fun m' hm' => hall m' (List.mem_cons_of_mem m hm'))

end TriviaPlus

/-- C5 (amended): malformed guesses are ignored silently, but in the Set game
a well-formed wrong call is penalized.  Part 1: the Set session records a
wrong answer (which the penalty handler will punish) exactly for a message in
the right channel, not from the bot, whose uppercased text is three distinct
valid grid letters naming cards that do not form a set; every other
non-accepted message is ignored with no effect.  Part 2: the penalty handler
sends a reply and deducts one point from the author.  Part 3: in trivia, when
no observed message matches, no "you got it" reply is sent and every
non-house score is unchanged. -/
theorem c5_rejection_behavior :
    (∀ (boardW : Nat) (board : List Nat) (sameChannel fromMe : Bool)
       (content : List Nat),
       PlaySet.checkSet boardW board sameChannel fromMe content = (false, true) ↔
         sameChannel = true ∧ fromMe = false ∧
         ∃ g0 g1 g2, content.map TriviaPlus.pyToUpper = [g0, g1, g2] ∧
           g0 ≠ g1 ∧ g0 ≠ g2 ∧ g1 ≠ g2 ∧
           PlaySet.validLetter boardW g0 = true ∧
           PlaySet.validLetter boardW g1 = true ∧
           PlaySet.validLetter boardW g2 = true ∧
           PlaySet.isSet [PlaySet.cardOf board g0, PlaySet.cardOf board g1,
             PlaySet.cardOf board g2] = false) ∧
    (∀ (scores : List (Author × Int)) (a : Author),
       (PlaySet.wrongHandlerStep scores a).2 = true ∧
       TriviaPlus.getScore (PlaySet.wrongHandlerStep scores a).1 a =
         TriviaPlus.getScore scores a - 1) ∧
    (∀ (pats : List (List TriviaPlus.RTok)) (channel : Nat) (me : Author)
       (botPlays : Bool) (timeout last0 now : Nat) (msgs : List Msg)
       (scores : List (Author × Int)),
       (∀ m ∈ msgs, TriviaPlus.predAccept channel me pats m = false) →
         (TriviaPlus.waitForAnswer pats channel me botPlays timeout last0 msgs now
             scores).gotIt = none ∧
         ∀ a : Author, a ≠ me →
           TriviaPlus.getScore (TriviaPlus.waitForAnswer pats channel me botPlays
             timeout last0 msgs now scores).scores a = TriviaPlus.getScore scores a) := by
  refine ⟨?_, ?_, ?_⟩
  · intro boardW board sc fm content
    simp only [PlaySet.checkSet]
    by_cases h1 : sc = false ∨ fm = true
    · rw [if_pos h1]
      constructor
      · intro he; exact absurd he (by simp)
      · rintro ⟨hsc, hfm, _⟩
        rcases h1 with h | h
        · rw [hsc] at h; exact absurd h (by simp)
        · rw [hfm] at h; exact absurd h (by simp)
    · rw [if_neg h1]
      push_neg at h1
      obtain ⟨hsc0, hfm0⟩ := h1
      have hsc : sc = true := by cases sc <;> simp_all
      have hfm : fm = false := by cases fm <;> simp_all
      by_cases hlen : (content.map TriviaPlus.pyToUpper).length ≠ 3
      · rw [if_pos hlen]
        constructor
        · intro he; exact absurd he (by simp)
        · rintro ⟨_, _, g0', g1', g2', heq, _⟩
          exact absurd (by rw [heq]; rfl) hlen
      · rw [if_neg hlen]
        push_neg at hlen
        obtain ⟨g0, g1, g2, hguess⟩ := List.length_eq_three.mp hlen
        rw [hguess]
        simp only [List.getD_cons_zero, List.getD_cons_succ]
        constructor
        · intro he
          by_cases hdup : g0 = g1 ∨ g0 = g2 ∨ g1 = g2
          · rw [if_pos hdup] at he; exact absurd he (by simp)
          · rw [if_neg hdup] at he
            push_neg at hdup
            by_cases hval : PlaySet.validLetter boardW g0 = true ∧
                PlaySet.validLetter boardW g1 = true ∧ PlaySet.validLetter boardW g2 = true
            · rw [if_pos hval] at he
              by_cases hset : PlaySet.isSet [PlaySet.cardOf board g0,
                  PlaySet.cardOf board g1, PlaySet.cardOf board g2] = true
              · rw [if_pos hset] at he; exact absurd he (by simp)
              · rw [if_neg hset] at he
                rw [Bool.not_eq_true] at hset
                exact ⟨hsc, hfm, g0, g1, g2, rfl, hdup.1, hdup.2.1, hdup.2.2,
                  hval.1, hval.2.1, hval.2.2, hset⟩
            · rw [if_neg hval] at he; exact absurd he (by simp)
        · rintro ⟨_, _, g0', g1', g2', heq, hne01, hne02, hne12, hv0, hv1, hv2, hns⟩
          obtain ⟨e0, e1, e2⟩ : g0 = g0' ∧ g1 = g1' ∧ g2 = g2' := by
            injection heq with a heq
            injection heq with b heq
            injection heq with c heq
            exact ⟨a, b, c⟩
          subst e0; subst e1; subst e2
          rw [if_neg (by push_neg; exact ⟨hne01, hne02, hne12⟩), if_pos ⟨hv0, hv1, hv2⟩,
            if_neg (by rw [hns]; simp)]
  · intro scores a
    refine ⟨rfl, ?_⟩
    show TriviaPlus.getScore (TriviaPlus.bumpScore scores a (-1)) a =
      TriviaPlus.getScore scores a - 1
    rw [TriviaPlus.getScore_bumpScore_self]
    omega
  · intro pats channel me botPlays timeout last0 now msgs scores hall
    have hnone := TriviaPlus.scanMsgs_none_of_all_false channel me pats msgs last0 hall
    unfold TriviaPlus.waitForAnswer
    rw [show TriviaPlus.scanMsgs channel me pats last0 msgs =
        ((TriviaPlus.scanMsgs channel me pats last0 msgs).1,
         (TriviaPlus.scanMsgs channel me pats last0 msgs).2) from rfl, hnone]
    simp only
    by_cases htm : timeout ≤ now - (TriviaPlus.scanMsgs channel me pats last0 msgs).1
    · rw [if_pos htm]
      exact ⟨rfl, fun a _ => rfl⟩
    · rw [if_neg htm]
      by_cases hbp : botPlays = true
      · rw [if_pos hbp]
        exact ⟨rfl, fun a ha => TriviaPlus.getScore_bumpScore_ne a me 1 ha scores⟩
      · rw [if_neg hbp]
        exact ⟨rfl, fun a _ => rfl⟩

/-- Witness for C5 (amended): a malformed Set guess ("ab", too short) is
silently ignored; the well-formed non-set call "abc" on a board whose first
row holds cards 0, 1, 3 is recorded as a wrong answer; a non-matching trivia
guess leaves the non-house score of its author unchanged and draws no
reply. -/
theorem c5_rejection_behavior_witness :
    PlaySet.checkSet 4 [0, 20, 21, 1, 22, 23, 3, 24, 25, 26, 27, 28] true false
      (TriviaPlus.codes "abc") = (false, true) ∧
    (TriviaPlus.waitForAnswer [[TriviaPlus.RTok.wordB, TriviaPlus.RTok.lit 113,
        TriviaPlus.RTok.wordB]] 0 ⟨0, true⟩ false 100 0
        [⟨0, ⟨1, false⟩, TriviaPlus.codes "xyz", 10⟩] 20 []).gotIt = none ∧
    TriviaPlus.getScore (TriviaPlus.waitForAnswer [[TriviaPlus.RTok.wordB,
        TriviaPlus.RTok.lit 113, TriviaPlus.RTok.wordB]] 0 ⟨0, true⟩ false 100 0
        [⟨0, ⟨1, false⟩, TriviaPlus.codes "xyz", 10⟩] 20 []).scores ⟨1, false⟩ =
      TriviaPlus.getScore [] ⟨1, false⟩ := by
  refine ⟨?_, ?_, ?_⟩
  · exact (c5_rejection_behavior.1 4 [0, 20, 21, 1, 22, 23, 3, 24, 25, 26, 27, 28]
      true false (TriviaPlus.codes "abc")).mpr
      ⟨rfl, rfl, 65, 66, 67, by decide, by decide, by decide, by decide,
       by decide, by decide, by decide, by decide⟩
  · exact (c5_rejection_behavior.2.2 [[TriviaPlus.RTok.wordB, TriviaPlus.RTok.lit 113,
      TriviaPlus.RTok.wordB]] 0 ⟨0, true⟩ false 100 0 20
      [⟨0, ⟨1, false⟩, TriviaPlus.codes "xyz", 10⟩] [] (by decide)).1
  · exact (c5_rejection_behavior.2.2 [[TriviaPlus.RTok.wordB, TriviaPlus.RTok.lit 113,
      TriviaPlus.RTok.wordB]] 0 ⟨0, true⟩ false 100 0 20
      [⟨0, ⟨1, false⟩, TriviaPlus.codes "xyz", 10⟩] [] (by decide)).2
      ⟨1, false⟩ (by decide)

/-- Counterexample for C5: the message "abc" on a Set board whose first-row
cards 0, 1, 3 do not form a set is not accepted as a correct answer, yet it
is not ignored silently: it is queued as a wrong answer, and the penalty
handler replies and deducts a point from its author. -/
theorem c5_counterexample :
    PlaySet.checkSet 4 [0, 20, 21, 1, 22, 23, 3, 24, 25, 26, 27, 28] true false
      (TriviaPlus.codes "abc") = (false, true) ∧
    (PlaySet.wrongHandlerStep [] ⟨1, false⟩).2 = true ∧
    TriviaPlus.getScore (PlaySet.wrongHandlerStep [] ⟨1, false⟩).1 ⟨1, false⟩ = -1 := by
  decide

namespace PlaySet

/-- C6 (amended): the stop command on a live Set session cancels the driving
task, dispatches the end event whose listener removes the session from the
per-channel registry, and emits no "nobody got it" or reveal message; but it
does not bypass the normal end-of-round announcements: it runs `end_game()`
first, which sends the results table whenever any scores exist. -/
theorem c6_forced_stop (sessionExists scoresNonempty : Bool)
    (h : sessionExists = true) :
    (setStopCommand sessionExists scoresNonempty).taskCancelled = true ∧
    (setStopCommand sessionExists scoresNonempty).dispatchedEnd = true ∧
    OutMsg.nobodyGotIt ∉ (setStopCommand sessionExists scoresNonempty).messages ∧
    OutMsg.revealAnswerMsg ∉ (setStopCommand sessionExists scoresNonempty).messages ∧
    (OutMsg.resultsTable ∈ (setStopCommand sessionExists scoresNonempty).messages ↔
       scoresNonempty = true) ∧
    ∀ (sessions : List Nat) (s : Nat), sessions.Nodup → s ∉ onSetEnd sessions s := by
  subst h
  refine ⟨?_, ?_, ?_, ?_, ?_, ?_⟩
  · cases scoresNonempty <;> decide
  · cases scoresNonempty <;> decide
  · cases scoresNonempty <;> decide
  · cases scoresNonempty <;> decide
  · cases scoresNonempty <;> decide
  · intro sessions s hnd
    exact hnd.not_mem_erase

/-- Witness for C6 (amended): stopping a live session with scores cancels the
task, dispatches the end event, sends no timeout messages, and the registry
listener removes the session id 5 from the registry [5]. -/
theorem c6_forced_stop_witness :
    (setStopCommand true true).taskCancelled = true ∧
    (setStopCommand true true).dispatchedEnd = true ∧
    OutMsg.nobodyGotIt ∉ (setStopCommand true true).messages ∧
    (5 : Nat) ∉ onSetEnd [5] 5 :=
  ⟨(c6_forced_stop true true rfl).1, (c6_forced_stop true true rfl).2.1,
   (c6_forced_stop true true rfl).2.2.1,
   (c6_forced_stop true true rfl).2.2.2.2.2 [5] 5 (by decide)⟩

/-- Counterexample for C6: a forced stop on a session with non-empty scores
does not bypass the end-of-round announcements: the stop command runs
`end_game()` first and the results table is sent. -/
theorem c6_counterexample :
    OutMsg.resultsTable ∈ (setStopCommand true true).messages ∧
    (setStopCommand true true).taskCancelled = true := by
  decide

end PlaySet
